import Mathlib

/-!
Shallow embedding of the chess engine (`chess_pieces.py`, `chess_board.py`,
`chess_ai.py`) and verification of the specification's claims about it.
Coordinates are modelled as `Int` (Python ints); the 8×8 grid is a list of
rows, each a list of optional pieces; floating-point evaluation weights are
modelled exactly as rationals.
-/

namespace Chess

inductive Color where
  | white
  | black
deriving DecidableEq, Repr

def Color.other : Color → Color
  | .white => .black
  | .black => .white

inductive PieceKind where
  | pawn
  | rook
  | knight
  | bishop
  | queen
  | king
deriving DecidableEq, Repr

/-- A chess piece: `ChessPiece.__init__` fields `color`, `row`, `col`,
`has_moved`, together with the subclass tag (`piece_type`). -/
structure Piece where
  color : Color
  kind : PieceKind
  row : Int
  col : Int
  has_moved : Bool
deriving DecidableEq, Repr

/-- The board grid `self.board`: 8 rows of 8 optional pieces. -/
abbrev Grid := List (List (Option Piece))

/-- A move `((from_row, from_col), (to_row, to_col))`. -/
abbrev Move := (Int × Int) × (Int × Int)

/-- `ChessBoard.is_valid_position`: `0 <= row < 8 and 0 <= col < 8`. -/
def is_valid_position (r c : Int) : Bool :=
  decide (0 ≤ r ∧ r < 8 ∧ 0 ≤ c ∧ c < 8)

/-- `ChessBoard.get_piece`: the cell contents for on-board coordinates,
`None` off the grid.  In-range raw accesses `board[r][c]` in the source are
modelled with this same function (they agree on in-range coordinates). -/
def get_piece (g : Grid) (r c : Int) : Option Piece :=
  if is_valid_position r c then (g.getD r.toNat []).getD c.toNat none else none

/-- Raw in-range assignment `board[r][c] = v`. -/
def setCell (g : Grid) (r c : Int) (v : Option Piece) : Grid :=
  if is_valid_position r c then g.set r.toNat ((g.getD r.toNat []).set c.toNat v) else g

/-- Destination test shared by every non-pawn rule in the source:
`target is None or target.color != self.color`. -/
def dest_ok (p : Piece) (nr nc : Int) (g : Grid) : Bool :=
  match get_piece g nr nc with
  | none => true
  | some t => t.color != p.color

/-- `Pawn.is_valid_move`. -/
def pawn_valid (p : Piece) (nr nc : Int) (g : Grid) : Bool :=
  let row_diff := nr - p.row
  let col_diff := (nc - p.col).natAbs
  let direction : Int := if p.color == .white then 1 else -1
  if col_diff == 0 then
    (row_diff == direction && (get_piece g nr nc).isNone)
      || (!p.has_moved && row_diff == 2 * direction && (get_piece g nr nc).isNone)
  else if col_diff == 1 && row_diff == direction then
    match get_piece g nr nc with
    | some t => t.color != p.color
    | none => false
  else
    false

/-- The `while current_row != new_row or current_col != new_col` walk of
`Rook._is_path_clear` / `Queen._is_straight_clear`, fuelled (at most 7 steps
are ever taken for on-board coordinates; fuel 8 is enough). -/
def straight_clear_aux (g : Grid) (rs cs nr nc : Int) : Nat → Int → Int → Bool
  | 0, _, _ => true
  | fuel+1, cr, cc =>
    if cr == nr && cc == nc then true
    else if (get_piece g cr cc).isSome then false
    else straight_clear_aux g rs cs nr nc fuel (cr + rs) (cc + cs)

/-- The `while current_row != new_row` walk of
`Bishop._is_diagonal_clear` / `Queen._is_diagonal_clear`, fuelled. -/
def diag_clear_aux (g : Grid) (rs cs nr : Int) : Nat → Int → Int → Bool
  | 0, _, _ => true
  | fuel+1, cr, cc =>
    if cr == nr then true
    else if (get_piece g cr cc).isSome then false
    else diag_clear_aux g rs cs nr fuel (cr + rs) (cc + cs)

/-- `Rook.is_valid_move` with its `_is_path_clear` helper. -/
def rook_valid (p : Piece) (nr nc : Int) (g : Grid) : Bool :=
  if nr == p.row || nc == p.col then
    let rs : Int := if nr == p.row then 0 else if nr > p.row then 1 else -1
    let cs : Int := if nc == p.col then 0 else if nc > p.col then 1 else -1
    straight_clear_aux g rs cs nr nc 8 (p.row + rs) (p.col + cs) && dest_ok p nr nc g
  else false

/-- `Knight.is_valid_move`. -/
def knight_valid (p : Piece) (nr nc : Int) (g : Grid) : Bool :=
  let rd := (nr - p.row).natAbs
  let cd := (nc - p.col).natAbs
  if (rd == 2 && cd == 1) || (rd == 1 && cd == 2) then dest_ok p nr nc g
  else false

/-- `Bishop.is_valid_move` with its `_is_diagonal_clear` helper. -/
def bishop_valid (p : Piece) (nr nc : Int) (g : Grid) : Bool :=
  let rd := (nr - p.row).natAbs
  let cd := (nc - p.col).natAbs
  if rd == cd && rd > 0 then
    let rs : Int := if nr > p.row then 1 else -1
    let cs : Int := if nc > p.col then 1 else -1
    diag_clear_aux g rs cs nr 8 (p.row + rs) (p.col + cs) && dest_ok p nr nc g
  else false

/-- `Queen.is_valid_move` with its two path helpers. -/
def queen_valid (p : Piece) (nr nc : Int) (g : Grid) : Bool :=
  let rook_move := nr == p.row || nc == p.col
  let bishop_move := (nr - p.row).natAbs == (nc - p.col).natAbs
  if rook_move then
    let rs : Int := if nr == p.row then 0 else if nr > p.row then 1 else -1
    let cs : Int := if nc == p.col then 0 else if nc > p.col then 1 else -1
    straight_clear_aux g rs cs nr nc 8 (p.row + rs) (p.col + cs) && dest_ok p nr nc g
  else if bishop_move then
    let rs : Int := if nr > p.row then 1 else -1
    let cs : Int := if nc > p.col then 1 else -1
    diag_clear_aux g rs cs nr 8 (p.row + rs) (p.col + cs) && dest_ok p nr nc g
  else false

/-- `King.is_valid_move`. -/
def king_valid (p : Piece) (nr nc : Int) (g : Grid) : Bool :=
  let rd := (nr - p.row).natAbs
  let cd := (nc - p.col).natAbs
  if rd ≤ 1 && cd ≤ 1 && rd + cd > 0 then dest_ok p nr nc g
  else false

/-- Dynamic dispatch of `is_valid_move` over the piece subclasses. -/
def is_valid_move (p : Piece) (nr nc : Int) (g : Grid) : Bool :=
  match p.kind with
  | .pawn => pawn_valid p nr nc g
  | .rook => rook_valid p nr nc g
  | .knight => knight_valid p nr nc g
  | .bishop => bishop_valid p nr nc g
  | .queen => queen_valid p nr nc g
  | .king => king_valid p nr nc g

/-- `ChessPiece.get_possible_moves`: row-major scan of all 64 targets. -/
def get_possible_moves (p : Piece) (g : Grid) : List (Int × Int) :=
  (List.range 8).flatMap fun r =>
    (List.range 8).filterMap fun c =>
      if is_valid_move p (r : Int) (c : Int) g then some ((r : Int), (c : Int)) else none

/-- All 64 squares in row-major order, the scan order of the source's
`for row in range(8): for col in range(8)` loops. -/
def allSquares : List (Int × Int) :=
  (List.range 8).flatMap fun r => (List.range 8).map fun c => ((r : Int), (c : Int))

/-- A `move_history` entry as built in `ChessBoard.make_move` (the stored
piece reference is recorded with the state it has when appended, i.e. after
`move_to`). -/
structure MoveRecord where
  from_sq : Int × Int
  to_sq : Int × Int
  piece : Piece
  captured : Option Piece
  player : Color
deriving DecidableEq, Repr

/-- The `ChessBoard` object state. `winner` is one of `"white"`, `"black"`,
`"draw"` or `None`. -/
structure ChessBoard where
  board : Grid
  current_player : Color
  game_over : Bool
  winner : Option String
  move_history : List MoveRecord
deriving DecidableEq, Repr

/-- `ChessBoard.find_king`: first square in row-major order holding the
given color's king. -/
def find_king (g : Grid) (color : Color) : Option (Int × Int) :=
  allSquares.find? fun rc =>
    match get_piece g rc.1 rc.2 with
    | some p => p.kind == PieceKind.king && p.color == color
    | none => false

/-- `ChessBoard.is_in_check`: with no king present the answer is `False`;
otherwise some opposing piece's `is_valid_move` targets the king square. -/
def is_in_check (g : Grid) (color : Color) : Bool :=
  match find_king g color with
  | none => false
  | some kp =>
    allSquares.any fun rc =>
      match get_piece g rc.1 rc.2 with
      | some p => p.color == color.other && is_valid_move p kp.1 kp.2 g
      | none => false

/-- The transient application step of `would_be_in_check_after_move` (and of
`ChessAI._alpha_beta`, which performs the identical grid/field updates):
put the moved piece, with its `row`/`col` fields updated, on the target
cell and empty the source cell.  The source reads the moving piece with a
raw `board[from_row][from_col]` that every caller has already checked to be
occupied; on an empty source this model leaves the grid unchanged. -/
def apply_transient (g : Grid) (fr fc tr tc : Int) : Grid :=
  match get_piece g fr fc with
  | none => g
  | some piece =>
    setCell (setCell g tr tc (some { piece with row := tr, col := tc })) fr fc none

/-- The restoring step of the same apply/revert pair: put back the saved
moving piece (its `row`/`col` restored to the saved originals) on the
source cell and the saved captured piece on the target cell, in the
source's order. -/
def revert_transient (g : Grid) (fr fc tr tc : Int) (piece : Piece)
    (captured : Option Piece) : Grid :=
  setCell (setCell g fr fc (some piece)) tr tc captured

/-- `ChessBoard.would_be_in_check_after_move`: apply the move transiently
and test whether `self.current_player` (passed here as `cur`) is in check;
the board is then restored, so the net effect is pure. -/
def would_be_in_check_after_move (g : Grid) (cur : Color) (fr fc tr tc : Int) : Bool :=
  is_in_check (apply_transient g fr fc tr tc) cur

/-- `ChessBoard.get_all_possible_moves` at the grid level: `cur` is the
board's `current_player`, which the source's check filter uses (it calls
`would_be_in_check_after_move`, which tests `self.current_player`'s king,
whatever `color` was asked for). -/
def get_all_possible_moves (g : Grid) (cur : Color) (color : Color) : List Move :=
  allSquares.flatMap fun rc =>
    match get_piece g rc.1 rc.2 with
    | some p =>
      if p.color == color then
        (get_possible_moves p g).filterMap fun dest =>
          if would_be_in_check_after_move g cur rc.1 rc.2 dest.1 dest.2 then none
          else some (rc, dest)
      else []
    | none => []

/-- `ChessBoard.get_all_possible_moves` as a method of the board object. -/
def ChessBoard.get_all_possible_moves (cb : ChessBoard) (color : Color) : List Move :=
  Chess.get_all_possible_moves cb.board cb.current_player color

/-- `ChessBoard.is_checkmate`. -/
def is_checkmate (g : Grid) (cur color : Color) : Bool :=
  is_in_check g color && (get_all_possible_moves g cur color).length == 0

/-- `ChessBoard.is_stalemate`. -/
def is_stalemate (g : Grid) (cur color : Color) : Bool :=
  !is_in_check g color && (get_all_possible_moves g cur color).length == 0

/-- `ChessBoard.check_game_end`, run by `make_move` after switching players. -/
def check_game_end (cb : ChessBoard) : ChessBoard :=
  if is_checkmate cb.board cb.current_player cb.current_player then
    { cb with game_over := true,
              winner := some (match cb.current_player with
                              | .white => "black"
                              | .black => "white") }
  else if is_stalemate cb.board cb.current_player cb.current_player then
    { cb with game_over := true, winner := some "draw" }
  else cb

/-- `ChessBoard.make_move`: validation in source order, then mutation,
history append, player switch and game-end evaluation. -/
def make_move (cb : ChessBoard) (fr fc tr tc : Int) : ChessBoard × Bool × String :=
  match get_piece cb.board fr fc with
  | none => (cb, false, "No piece at source position")
  | some piece =>
    if piece.color != cb.current_player then (cb, false, "Not your piece")
    else if !is_valid_position tr tc then (cb, false, "Invalid destination")
    else if !is_valid_move piece tr tc cb.board then (cb, false, "Invalid move for this piece")
    else if would_be_in_check_after_move cb.board cb.current_player fr fc tr tc then
      (cb, false, "Move would put king in check")
    else
      let captured := get_piece cb.board tr tc
      let moved : Piece := { piece with row := tr, col := tc, has_moved := true }
      let g1 := setCell (setCell cb.board tr tc (some moved)) fr fc none
      let entry : MoveRecord :=
        { from_sq := (fr, fc), to_sq := (tr, tc), piece := moved,
          captured := captured, player := cb.current_player }
      let cb1 : ChessBoard :=
        { board := g1, current_player := cb.current_player.other,
          game_over := cb.game_over, winner := cb.winner,
          move_history := cb.move_history ++ [entry] }
      (check_game_end cb1, true, "Move successful")

/-- One back rank of `setup_initial_position`:
Rook-Knight-Bishop-Queen-King-Bishop-Knight-Rook. -/
def back_rank (c : Color) (r : Int) : List (Option Piece) :=
  [some ⟨c, .rook, r, 0, false⟩, some ⟨c, .knight, r, 1, false⟩,
   some ⟨c, .bishop, r, 2, false⟩, some ⟨c, .queen, r, 3, false⟩,
   some ⟨c, .king, r, 4, false⟩, some ⟨c, .bishop, r, 5, false⟩,
   some ⟨c, .knight, r, 6, false⟩, some ⟨c, .rook, r, 7, false⟩]

/-- One pawn rank of `setup_initial_position`. -/
def pawn_rank (c : Color) (r : Int) : List (Option Piece) :=
  (List.range 8).map fun col => some ⟨c, .pawn, r, (col : Int), false⟩

def empty_rank : List (Option Piece) :=
  (List.range 8).map fun _ => none

def empty_grid : Grid :=
  (List.range 8).map fun _ => empty_rank

/-- The grid built by `setup_initial_position`: black pieces on rows 0 and
1, white pawns on row 6, white pieces on row 7. -/
def initial_grid : Grid :=
  [back_rank .black 0, pawn_rank .black 1, empty_rank, empty_rank,
   empty_rank, empty_rank, pawn_rank .white 6, back_rank .white 7]

/-- A freshly constructed `ChessBoard()`. -/
def initial_board : ChessBoard :=
  { board := initial_grid, current_player := .white, game_over := false,
    winner := none, move_history := [] }

/-- Well-formed grid shape: 8 rows of 8 cells, as every grid built by the
program is. -/
def wf_grid (g : Grid) : Prop :=
  g.length = 8 ∧ ∀ row ∈ g, row.length = 8

/-- An exact fraction, used to model the Python float values manipulated
by the evaluator and the search.  Every value the program builds is a sum
and product of small decimal constants, on which binary-float rounding
never affects any comparison the claims concern; fractions are kept
unreduced (the denominator is positive in every constructed value). -/
structure Q where
  num : Int
  den : Int
deriving DecidableEq, Repr

def Q.ofInt (n : Int) : Q := ⟨n, 1⟩

def Q.ofNat (n : Nat) : Q := ⟨(n : Int), 1⟩

instance : Add Q := ⟨fun a b => ⟨a.num * b.den + b.num * a.den, a.den * b.den⟩⟩

instance : Sub Q := ⟨fun a b => ⟨a.num * b.den - b.num * a.den, a.den * b.den⟩⟩

instance : Mul Q := ⟨fun a b => ⟨a.num * b.num, a.den * b.den⟩⟩

instance : Neg Q := ⟨fun a => ⟨-a.num, a.den⟩⟩

/-- `a <= b` on fractions with positive denominators. -/
def Q.ble (a b : Q) : Bool := a.num * b.den ≤ b.num * a.den

/-- `a < b` on fractions with positive denominators. -/
def Q.blt (a b : Q) : Bool := a.num * b.den < b.num * a.den

/-- Python's `abs` on a fraction with positive denominator. -/
def Q.abs (a : Q) : Q := if a.num < 0 then ⟨-a.num, a.den⟩ else a

/-- A search score: a Python float that is either `float('-inf')`,
`float('inf')`, or a finite value. -/
inductive Score where
  | negInf
  | fin (q : Q)
  | posInf
deriving DecidableEq, Repr

/-- `a <= b` on scores. -/
def Score.le : Score → Score → Bool
  | .negInf, _ => true
  | _, .posInf => true
  | .fin a, .fin b => Q.ble a b
  | .posInf, _ => false
  | .fin _, .negInf => false

/-- Python `max` on scores. -/
def Score.max (a b : Score) : Score := if Score.le a b then b else a

/-- Python `min` on scores. -/
def Score.min (a b : Score) : Score := if Score.le a b then a else b

/-- `ChessAI.piece_values`. -/
def piece_value : PieceKind → Q
  | .pawn => Q.ofInt 1
  | .knight => Q.ofInt 3
  | .bishop => Q.ofInt 3
  | .rook => Q.ofInt 5
  | .queen => Q.ofInt 9
  | .king => Q.ofInt 100

/-- `abs(3.5 - row) + abs(3.5 - col)` from `_get_position_bonus`
(`3.5 = 7/2`). -/
def center_distance (r c : Int) : Q :=
  Q.abs (⟨7, 2⟩ - Q.ofInt r) + Q.abs (⟨7, 2⟩ - Q.ofInt c)

/-- `ChessAI._get_position_bonus` (float weights 0.1 and 0.05 modelled as
the exact fractions 1/10 and 1/20). -/
def get_position_bonus (p : Piece) (r c : Int) : Q :=
  match p.kind with
  | .pawn =>
    if p.color == .white then (Q.ofInt 7 - Q.ofInt r) * ⟨1, 10⟩
    else Q.ofInt r * ⟨1, 10⟩
  | .knight => (Q.ofInt 4 - center_distance r c) * ⟨1, 10⟩
  | .bishop => (Q.ofInt 7 - center_distance r c) * ⟨1, 20⟩
  | .king => -(center_distance r c) * ⟨1, 10⟩
  | _ => Q.ofInt 0

/-- The pawn-shield count of `_evaluate_king_safety` over column offsets
`[-1, 0, 1]`. -/
def shield_count (g : Grid) (row kc : Int) (color : Color) : Q :=
  ([-1, 0, 1] : List Int).foldl (fun acc off =>
    let sc := kc + off
    if 0 ≤ sc ∧ sc < 8 then
      match get_piece g row sc with
      | some p =>
        if p.kind == PieceKind.pawn && p.color == color then acc + Q.ofInt 1 else acc
      | none => acc
    else acc) (Q.ofInt 0)

/-- `ChessAI._evaluate_king_safety`. -/
def evaluate_king_safety (g : Grid) (color : Color) : Q :=
  match find_king g color with
  | none => Q.ofInt (-100)
  | some kp =>
    if color == Color.white && kp.1 == 7 then shield_count g 6 kp.2 color
    else if color == Color.black && kp.1 == 0 then shield_count g 1 kp.2 color
    else Q.ofInt 0

/-- `ChessAI._evaluate_position_advanced`; `aiColor` is `self.color`, and
`cur` is the board's `current_player` (used, unchanged, by the mobility
term's calls to `get_all_possible_moves`). -/
def evaluate_position_advanced (aiColor : Color) (g : Grid) (cur : Color) : Q :=
  let material := allSquares.foldl (fun acc rc =>
    match get_piece g rc.1 rc.2 with
    | some p =>
      let total := piece_value p.kind + get_position_bonus p rc.1 rc.2
      if p.color == aiColor then acc + total else acc - total
    | none => acc) (Q.ofInt 0)
  let with_safety := material + evaluate_king_safety g aiColor * Q.ofInt 2
    - evaluate_king_safety g aiColor.other * Q.ofInt 2
  let my_moves := (get_all_possible_moves g cur aiColor).length
  let opponent_moves := (get_all_possible_moves g cur aiColor.other).length
  with_safety + (Q.ofNat my_moves - Q.ofNat opponent_moves) * ⟨1, 10⟩

/-- Does the move land on a non-empty cell (the capture test of
`_order_moves`, `board.board[to_row][to_col] is not None`)? -/
def is_capture (g : Grid) (m : Move) : Bool :=
  (get_piece g m.2.1 m.2.2).isSome

/-- `ChessAI._order_moves`: single pass splitting into captures and quiet
moves, captures first, each side keeping its incoming order. -/
def order_moves (g : Grid) (moves : List Move) : List Move :=
  moves.filter (fun m => is_capture g m) ++ moves.filter (fun m => !is_capture g m)

/-- Rank used to state the ordering property: captures rank 1, quiet 0. -/
def capture_rank (g : Grid) (m : Move) : Nat :=
  if is_capture g m then 1 else 0

/-- The maximizing loop of `_alpha_beta` (`max_eval`/`alpha` updates and
the `beta <= alpha` break, taken after scoring the current move). -/
def ab_loop_max (recur : Move → Score → Score → Score) :
    List Move → Score → Score → Score → Score
  | [], maxEval, _, _ => maxEval
  | m :: ms, maxEval, alpha, beta =>
    let s := recur m alpha beta
    let maxEval' := Score.max maxEval s
    let alpha' := Score.max alpha s
    if Score.le beta alpha' then maxEval'
    else ab_loop_max recur ms maxEval' alpha' beta

/-- The minimizing loop of `_alpha_beta` (`min_eval`/`beta` updates and the
`beta <= alpha` break). -/
def ab_loop_min (recur : Move → Score → Score → Score) :
    List Move → Score → Score → Score → Score
  | [], minEval, _, _ => minEval
  | m :: ms, minEval, alpha, beta =>
    let s := recur m alpha beta
    let minEval' := Score.min minEval s
    let beta' := Score.min beta s
    if Score.le beta' alpha then minEval'
    else ab_loop_min recur ms minEval' alpha beta'

/-- `ChessAI._alpha_beta`.  At depth 0 it evaluates the board it is handed
(before applying the move it was passed), exactly as the source does.  At
depth `d+1` it transiently applies the move; with `maximizing` true it
generates the OPPONENT's moves (`aiColor.other`) and runs the maximizing
loop over them from `float('-inf')`; with `maximizing` false it generates
the AI's own moves and runs the minimizing loop from `float('inf')`.
`cur` is the board object's `current_player`, which the search never
changes and which all embedded move generation therefore keeps using. -/
def alpha_beta (aiColor cur : Color) :
    Nat → Grid → Int → Int → Int → Int → Score → Score → Bool → Score
  | 0, g, _, _, _, _, _, _, _ => .fin (evaluate_position_advanced aiColor g cur)
  | depth+1, g, fr, fc, tr, tc, alpha, beta, maximizing =>
    let g2 := apply_transient g fr fc tr tc
    if maximizing then
      let moves := order_moves g2 (get_all_possible_moves g2 cur aiColor.other)
      ab_loop_max
        (fun m a b => alpha_beta aiColor cur depth g2 m.1.1 m.1.2 m.2.1 m.2.2 a b false)
        moves .negInf alpha beta
    else
      let moves := order_moves g2 (get_all_possible_moves g2 cur aiColor)
      ab_loop_min
        (fun m a b => alpha_beta aiColor cur depth g2 m.1.1 m.1.2 m.2.1 m.2.2 a b true)
        moves .posInf alpha beta

/-- The order in which the root loop of `ChessAI._get_minimax_move`
examines candidate moves: `for move in possible_moves` iterates the list
exactly as received — no reordering is applied at the root. -/
def minimax_root_order (possible_moves : List Move) : List Move :=
  possible_moves

/-- Board used to exhibit the pawn two-square rule on an occupied
intermediate cell: an unmoved white pawn on (1,3), a blocker on the
intermediate cell (2,3), destination (3,3) empty. -/
def c3_grid : Grid :=
  setCell (setCell empty_grid 2 3 (some ⟨.black, .pawn, 2, 3, true⟩))
    1 3 (some ⟨.white, .pawn, 1, 3, false⟩)

/-- Board used to exercise `_alpha_beta`: the AI (white, to move) has a
rook on (7,7) and a knight on (2,2); black has a pawn on (3,3) that can
either capture the knight or push quietly. -/
def c4_grid : Grid :=
  setCell (setCell (setCell empty_grid 7 7 (some ⟨.white, .rook, 7, 7, true⟩))
    2 2 (some ⟨.white, .knight, 2, 2, true⟩)) 3 3 (some ⟨.black, .pawn, 3, 3, true⟩)

/-- Position after the root move rook (7,7)→(6,7) and black's capture of
the knight. -/
def c4_after_capture : Grid :=
  apply_transient (apply_transient c4_grid 7 7 6 7) 3 3 2 2

/-- Position after the root move rook (7,7)→(6,7) and black's quiet pawn
push. -/
def c4_after_quiet : Grid :=
  apply_transient (apply_transient c4_grid 7 7 6 7) 3 3 2 3

/-- C2: from the initial layout the engine generates exactly 4 white
moves — the four knight moves — and no pawn moves at all, not the 20
moves (16 pawn + 4 knight) the specification states.  White pawns get
direction +1, i.e. toward white's own back rank, so every pawn move is
blocked or off the scanned board. -/
theorem initial_white_moves_are_four_knight_moves :
    ChessBoard.get_all_possible_moves initial_board .white
      = [((7,1),(5,0)), ((7,1),(5,2)), ((7,6),(5,5)), ((7,6),(5,7))]
    ∧ (ChessBoard.get_all_possible_moves initial_board .white).length = 4 := by
  exact ⟨by decide, by decide⟩

/-- C3: `Pawn.is_valid_move` accepts the two-square move of an unmoved
pawn even though the intermediate cell is occupied — it only tests the
destination cell. -/
theorem pawn_two_square_accepts_occupied_intermediate :
    (⟨.white, .pawn, 1, 3, false⟩ : Piece).has_moved = false
    ∧ get_piece c3_grid 2 3 = some ⟨.black, .pawn, 2, 3, true⟩
    ∧ get_piece c3_grid 3 3 = none
    ∧ is_valid_move ⟨.white, .pawn, 1, 3, false⟩ 3 3 c3_grid = true := by
  exact ⟨rfl, by decide, by decide, by decide⟩

/-- C4: in `_alpha_beta` the layers are inverted with respect to the
claim.  With `maximizing` true (as at every root call) the layer generates
the OPPONENT's replies and takes their MAXIMUM (updating alpha): from
`c4_grid`, after white's root move, black's two replies are capturing
white's knight (evaluating, for white, to 5.1) or pushing quietly
(evaluating to 9); a depth-2 search returns the larger, 9 — the maximum
over the opponent's replies — where the claim requires the minimum. -/
theorem alpha_beta_maximizes_over_opponent_replies :
    get_all_possible_moves (apply_transient c4_grid 7 7 6 7) .white .black
      = [((3,3),(2,2)), ((3,3),(2,3))]
    ∧ alpha_beta .white .white 2 c4_grid 7 7 6 7 .negInf .posInf true
        = .fin (evaluate_position_advanced .white c4_after_quiet .white)
    ∧ Q.blt (evaluate_position_advanced .white c4_after_capture .white)
        (evaluate_position_advanced .white c4_after_quiet .white) = true := by
  exact ⟨by decide, by decide, by decide⟩

/-- C9: when `find_king` returns `None`, `is_in_check` returns `False`
instead of failing. -/
theorem no_king_means_not_in_check (g : Grid) (color : Color)
    (h : find_king g color = none) : is_in_check g color = false := by
  unfold is_in_check
  rw [h]

/-- Witness for C9 at the empty grid. -/
theorem no_king_means_not_in_check_witness :
    find_king empty_grid .white = none ∧ is_in_check empty_grid .white = false :=
  ⟨by decide, no_king_means_not_in_check empty_grid .white (by decide)⟩

/-- C10: a `make_move` call whose source coordinates are off the grid
fails with the "No piece at source position" message (because `get_piece`
returns `None` off-grid), never with the destination out-of-bounds
message, and leaves the board untouched. -/
theorem off_grid_source_reports_no_piece (cb : ChessBoard) (fr fc tr tc : Int)
    (h : is_valid_position fr fc = false) :
    make_move cb fr fc tr tc = (cb, false, "No piece at source position") := by
  have hg : get_piece cb.board fr fc = none := by
    unfold get_piece
    simp [h]
  unfold make_move
  rw [hg]

/-- Witness for C10: source row −1 on the fresh board. -/
theorem off_grid_source_reports_no_piece_witness :
    is_valid_position (-1) 0 = false
    ∧ make_move initial_board (-1) 0 3 3
        = (initial_board, false, "No piece at source position") :=
  ⟨by decide, off_grid_source_reports_no_piece initial_board (-1) 0 3 3 (by decide)⟩

/-- Every `make_move` result either leaves the board untouched or reports
success: each of the five validation failures returns the incoming board
object unchanged. -/
theorem make_move_unchanged_or_success (cb : ChessBoard) (fr fc tr tc : Int) :
    (make_move cb fr fc tr tc).1 = cb ∨ (make_move cb fr fc tr tc).2.1 = true := by
  unfold make_move
  split
  · exact Or.inl rfl
  · split
    · exact Or.inl rfl
    · split
      · exact Or.inl rfl
      · split
        · exact Or.inl rfl
        · split
          · exact Or.inl rfl
          · exact Or.inr rfl

/-- C6: whenever `make_move` returns a failed result, the returned board
state — grid, every piece's fields, `current_player`, `game_over`,
`winner` and `move_history` — is equal to the state before the call. -/
theorem failed_make_move_leaves_board_unchanged (cb : ChessBoard) (fr fc tr tc : Int)
    (h : (make_move cb fr fc tr tc).2.1 = false) :
    (make_move cb fr fc tr tc).1 = cb := by
  rcases make_move_unchanged_or_success cb fr fc tr tc with h1 | h1
  · exact h1
  · rw [h1] at h
    cases h

/-- Witness for C6: moving from an empty cell of the fresh board fails and
returns the board unchanged. -/
theorem failed_make_move_leaves_board_unchanged_witness :
    (make_move initial_board 3 3 4 4).2.1 = false
    ∧ (make_move initial_board 3 3 4 4).1 = initial_board :=
  ⟨by decide, failed_make_move_leaves_board_unchanged initial_board 3 3 4 4 (by decide)⟩

/-- C7 (amended): `_order_moves` — applied to the candidate list at every
recursive level of `_alpha_beta` — puts every capture before every quiet
move; the root loop of `_get_minimax_move`, by contrast, examines
`possible_moves` unordered (see the counterexample). -/
theorem order_moves_puts_captures_first (g : Grid) (ms : List Move) :
    (order_moves g ms).Pairwise (fun a b => capture_rank g b ≤ capture_rank g a) := by
  unfold order_moves
  rw [List.pairwise_append]
  refine ⟨?_, ?_, ?_⟩
  · apply List.pairwise_of_forall_mem_list
    intro a ha b hb
    rw [List.mem_filter] at ha hb
    unfold capture_rank
    simp [ha.2, hb.2]
  · apply List.pairwise_of_forall_mem_list
    intro a ha b hb
    rw [List.mem_filter] at ha hb
    unfold capture_rank
    simp_all
  · intro a ha b hb
    rw [List.mem_filter] at ha hb
    unfold capture_rank
    simp_all

/-- Board showing the root loop is not capture-first: a white knight on
(0,0) whose quiet move to (1,2) is generated before its capture of the
black pawn on (2,1). -/
def c7_grid : Grid :=
  setCell (setCell empty_grid 0 0 (some ⟨.white, .knight, 0, 0, true⟩))
    2 1 (some ⟨.black, .pawn, 2, 1, true⟩)

def c7_board : ChessBoard :=
  { board := c7_grid, current_player := .white, game_over := false,
    winner := none, move_history := [] }

/-- C7 counterexample: at the root of the hard search the examined
sequence is `possible_moves` as produced by `get_all_possible_moves`,
and on `c7_board` that sequence has a quiet move before a capture, so the
claim's "all captures before all quiet moves at every level, including the
root loop" is false. -/
theorem root_moves_not_capture_first :
    ¬ (minimax_root_order (ChessBoard.get_all_possible_moves c7_board .white)).Pairwise
        (fun a b => capture_rank c7_grid b ≤ capture_rank c7_grid a) := by decide

/-- C8: `make_move` validates in the fixed source order and returns
exactly the message of the first failing check: empty source, then wrong
color, then off-grid destination, then pseudo-illegal shape, then
self-check exposure; otherwise it succeeds with "Move successful". -/
theorem make_move_validation_order (cb : ChessBoard) (fr fc tr tc : Int) :
    (get_piece cb.board fr fc = none →
      make_move cb fr fc tr tc = (cb, false, "No piece at source position"))
    ∧ ∀ p, get_piece cb.board fr fc = some p →
        (p.color ≠ cb.current_player →
          make_move cb fr fc tr tc = (cb, false, "Not your piece"))
        ∧ (p.color = cb.current_player → is_valid_position tr tc = false →
          make_move cb fr fc tr tc = (cb, false, "Invalid destination"))
        ∧ (p.color = cb.current_player → is_valid_position tr tc = true →
            is_valid_move p tr tc cb.board = false →
          make_move cb fr fc tr tc = (cb, false, "Invalid move for this piece"))
        ∧ (p.color = cb.current_player → is_valid_position tr tc = true →
            is_valid_move p tr tc cb.board = true →
            would_be_in_check_after_move cb.board cb.current_player fr fc tr tc = true →
          make_move cb fr fc tr tc = (cb, false, "Move would put king in check"))
        ∧ (p.color = cb.current_player → is_valid_position tr tc = true →
            is_valid_move p tr tc cb.board = true →
            would_be_in_check_after_move cb.board cb.current_player fr fc tr tc = false →
          (make_move cb fr fc tr tc).2.1 = true
          ∧ (make_move cb fr fc tr tc).2.2 = "Move successful") := by
  constructor
  · intro h
    unfold make_move
    rw [h]
  · intro p hp
    refine ⟨?_, ?_, ?_, ?_, ?_⟩
    · intro hne
      unfold make_move
      rw [hp]
      simp [bne_iff_ne, hne]
    · intro hcol hdest
      unfold make_move
      rw [hp]
      simp [hcol, hdest]
    · intro hcol hdest hshape
      unfold make_move
      rw [hp]
      simp [hcol, hdest, hshape]
    · intro hcol hdest hshape hchk
      unfold make_move
      rw [hp]
      simp [hcol, hdest, hshape, hchk]
    · intro hcol hdest hshape hchk
      unfold make_move
      rw [hp]
      simp [hcol, hdest, hshape, hchk]

/-- Witness for C8: attempting to move black's pawn on white's turn is
rejected as "Not your piece". -/
theorem make_move_validation_order_witness :
    make_move initial_board 1 0 2 0 = (initial_board, false, "Not your piece") :=
  ((make_move_validation_order initial_board 1 0 2 0).2
    ⟨.black, .pawn, 1, 0, false⟩ (by decide)).1 (by decide)

/-- Board showing the check filter of `get_all_possible_moves` guards the
wrong king when `color` is not the side to move: black king (0,0), black
rook (1,0) pinned by the white rook (2,0), white king (7,7); white is the
`current_player`. -/
def c1_grid : Grid :=
  setCell (setCell (setCell (setCell empty_grid
    0 0 (some ⟨.black, .king, 0, 0, true⟩))
    1 0 (some ⟨.black, .rook, 1, 0, true⟩))
    2 0 (some ⟨.white, .rook, 2, 0, true⟩))
    7 7 (some ⟨.white, .king, 7, 7, true⟩)

def c1_board : ChessBoard :=
  { board := c1_grid, current_player := .white, game_over := false,
    winner := none, move_history := [] }

/-- C1 counterexample: with white to move, `get_all_possible_moves` for
BLACK returns the pinned rook's move (1,0)→(1,5), after which black's own
king is in check — the filter tested `current_player` white's king, not
black's.  So "for every board and every color, no returned move leaves
`color`'s king in check" is false as stated. -/
theorem generated_move_can_leave_own_king_in_check :
    (((1,0),(1,5)) : Move) ∈ ChessBoard.get_all_possible_moves c1_board .black
    ∧ is_in_check (apply_transient c1_board.board 1 0 1 5) .black = true := by
  exact ⟨by decide, by decide⟩

/-- C1 (amended): the self-check filter of `get_all_possible_moves(color)`
tests the board's `current_player`'s king; therefore when `color` is the
side to move — the only case arising in turn-based play — no returned
move leaves `color`'s own king in check. -/
theorem generated_moves_safe_for_current_player (cb : ChessBoard) (color : Color)
    (m : Move) (hcolor : color = cb.current_player)
    (hm : m ∈ cb.get_all_possible_moves color) :
    is_in_check (apply_transient cb.board m.1.1 m.1.2 m.2.1 m.2.2) color = false := by
  subst hcolor
  unfold ChessBoard.get_all_possible_moves get_all_possible_moves at hm
  rw [List.mem_flatMap] at hm
  obtain ⟨rc, -, hmem⟩ := hm
  split at hmem
  · split at hmem
    · rw [List.mem_filterMap] at hmem
      obtain ⟨dest, -, heq⟩ := hmem
      split at heq
      · cases heq
      next hw =>
        obtain rfl : (rc, dest) = m := by injection heq
        simp only [would_be_in_check_after_move, Bool.not_eq_true] at hw
        exact hw
    · cases hmem
  · cases hmem

/-- Witness for the amended C1: a knight move of the fresh board's side to
move leaves white's king out of check. -/
theorem generated_moves_safe_for_current_player_witness :
    Color.white = initial_board.current_player
    ∧ (((7,1),(5,0)) : Move) ∈ ChessBoard.get_all_possible_moves initial_board .white
    ∧ is_in_check (apply_transient initial_board.board 7 1 5 0) .white = false :=
  ⟨rfl, by decide,
    generated_moves_safe_for_current_player initial_board .white ((7,1),(5,0))
      rfl (by decide)⟩

theorem valid_bounds {r c : Int} (h : is_valid_position r c = true) :
    0 ≤ r ∧ r < 8 ∧ 0 ≤ c ∧ c < 8 := by
  simpa [is_valid_position] using h

/-- A cell can only be occupied at on-board coordinates. -/
theorem get_piece_some_valid {g : Grid} {r c : Int} {p : Piece}
    (h : get_piece g r c = some p) : is_valid_position r c = true := by
  by_contra hv
  rw [Bool.not_eq_true] at hv
  simp [get_piece, hv] at h

theorem length_setCell (g : Grid) (r c : Int) (v : Option Piece) :
    (setCell g r c v).length = g.length := by
  unfold setCell
  split
  · simp
  · rfl

theorem row_length_of_wf {g : Grid} (hwf : wf_grid g) {i : Nat} (hi : i < g.length) :
    (g[i]).length = 8 :=
  hwf.2 _ (List.getElem_mem hi)

/-- A cell assignment preserves the 8×8 shape. -/
theorem wf_setCell {g : Grid} (hwf : wf_grid g) (r c : Int) (v : Option Piece) :
    wf_grid (setCell g r c v) := by
  constructor
  · rw [length_setCell]
    exact hwf.1
  · intro row hrow
    unfold setCell at hrow
    split at hrow
    · by_cases hi : r.toNat < g.length
      · rcases List.mem_or_eq_of_mem_set hrow with h1 | h1
        · exact hwf.2 _ h1
        · subst h1
          rw [List.length_set, List.getD_eq_getElem _ _ hi]
          exact row_length_of_wf hwf hi
      · rw [List.set_eq_of_length_le (by omega)] at hrow
        exact hwf.2 _ hrow
    · exact hwf.2 _ hrow

/-- Reading back the assigned cell. -/
theorem get_piece_setCell_self {g : Grid} (hwf : wf_grid g) {r c : Int}
    (hv : is_valid_position r c = true) (v : Option Piece) :
    get_piece (setCell g r c v) r c = v := by
  obtain ⟨h0r, h8r, h0c, h8c⟩ := valid_bounds hv
  have hi : r.toNat < g.length := by rw [hwf.1]; omega
  have hgd : g.getD r.toNat [] = g[r.toNat] := List.getD_eq_getElem g [] hi
  have hj : c.toNat < (g[r.toNat]).length := by rw [row_length_of_wf hwf hi]; omega
  unfold get_piece setCell
  simp only [hv, if_true]
  have e1 : (g.set r.toNat ((g.getD r.toNat []).set c.toNat v)).getD r.toNat []
      = (g.getD r.toNat []).set c.toNat v := by
    have hlen : r.toNat < (g.set r.toNat ((g.getD r.toNat []).set c.toNat v)).length := by
      rw [List.length_set]
      exact hi
    rw [List.getD_eq_getElem _ _ hlen, List.getElem_set_self]
  rw [e1]
  have hlen2 : c.toNat < ((g.getD r.toNat []).set c.toNat v).length := by
    rw [List.length_set, hgd]
    exact hj
  rw [List.getD_eq_getElem _ _ hlen2, List.getElem_set_self]

/-- Reading any other cell is unaffected by an assignment. -/
theorem get_piece_setCell_ne {g : Grid} (hwf : wf_grid g) {r c : Int}
    (v : Option Piece) {r' c' : Int} (hne : ¬(r' = r ∧ c' = c)) :
    get_piece (setCell g r c v) r' c' = get_piece g r' c' := by
  by_cases hv : is_valid_position r c = true
  case neg =>
    rw [Bool.not_eq_true] at hv
    simp [setCell, hv]
  by_cases hv' : is_valid_position r' c' = true
  case neg =>
    rw [Bool.not_eq_true] at hv'
    simp [get_piece, hv']
  obtain ⟨h0r, h8r, h0c, h8c⟩ := valid_bounds hv
  obtain ⟨h0r', h8r', h0c', h8c'⟩ := valid_bounds hv'
  have hi : r.toNat < g.length := by rw [hwf.1]; omega
  have hi' : r'.toNat < g.length := by rw [hwf.1]; omega
  unfold get_piece setCell
  simp only [hv, hv', if_true]
  by_cases hr : r' = r
  · have hcne : c' ≠ c := fun hc => hne ⟨hr, hc⟩
    subst hr
    have hgd : g.getD r'.toNat [] = g[r'.toNat] := List.getD_eq_getElem g [] hi'
    have hj' : c'.toNat < (g[r'.toNat]).length := by rw [row_length_of_wf hwf hi']; omega
    have e1 : (g.set r'.toNat ((g.getD r'.toNat []).set c.toNat v)).getD r'.toNat []
        = (g.getD r'.toNat []).set c.toNat v := by
      have hlen : r'.toNat < (g.set r'.toNat ((g.getD r'.toNat []).set c.toNat v)).length := by
        rw [List.length_set]
        exact hi'
      rw [List.getD_eq_getElem _ _ hlen, List.getElem_set_self]
    rw [e1]
    have hlen2 : c'.toNat < ((g.getD r'.toNat []).set c.toNat v).length := by
      rw [List.length_set, hgd]
      exact hj'
    have hlen3 : c'.toNat < (g.getD r'.toNat []).length := by
      rw [hgd]
      exact hj'
    rw [List.getD_eq_getElem _ _ hlen2, List.getD_eq_getElem _ _ hlen3]
    exact List.getElem_set_ne (by omega) _
  · have hrr : r.toNat ≠ r'.toNat := by omega
    have e1 : (g.set r.toNat ((g.getD r.toNat []).set c.toNat v)).getD r'.toNat []
        = g.getD r'.toNat [] := by
      have hlen : r'.toNat < (g.set r.toNat ((g.getD r.toNat []).set c.toNat v)).length := by
        rw [List.length_set]
        exact hi'
      rw [List.getD_eq_getElem _ _ hlen, List.getD_eq_getElem g [] hi']
      exact List.getElem_set_ne hrr _
    rw [e1]

theorem get_piece_eq_getElem {g : Grid} (hwf : wf_grid g) {i j : Nat}
    (hi : i < g.length) (hj : j < (g[i]).length) :
    get_piece g (i : Int) (j : Int) = (g[i])[j] := by
  have hi8 : i < 8 := by rw [← hwf.1]; exact hi
  have hj8 : j < 8 := by rw [← row_length_of_wf hwf hi]; exact hj
  have hv : is_valid_position (i : Int) (j : Int) = true := by
    simp only [is_valid_position, decide_eq_true_eq]
    omega
  unfold get_piece
  simp only [hv, if_true, Int.toNat_natCast]
  rw [List.getD_eq_getElem _ _ hi, List.getD_eq_getElem _ _ hj]

/-- Two well-formed grids with the same contents at every on-board
coordinate are equal. -/
theorem grid_ext {g1 g2 : Grid} (h1 : wf_grid g1) (h2 : wf_grid g2)
    (h : ∀ r c : Int, is_valid_position r c = true → get_piece g1 r c = get_piece g2 r c) :
    g1 = g2 := by
  apply List.ext_getElem (by rw [h1.1, h2.1])
  intro i hi1 hi2
  apply List.ext_getElem (by rw [row_length_of_wf h1 hi1, row_length_of_wf h2 hi2])
  intro j hj1 hj2
  have hv : is_valid_position (i : Int) (j : Int) = true := by
    have hi8 : i < 8 := by rw [← h1.1]; exact hi1
    have hj8 : j < 8 := by rw [← row_length_of_wf h1 hi1]; exact hj1
    simp only [is_valid_position, decide_eq_true_eq]
    omega
  have hx := h i j hv
  rw [get_piece_eq_getElem h1 hi1 hj1, get_piece_eq_getElem h2 hi2 hj2] at hx
  exact hx

/-- C5: the apply/revert pair used by `would_be_in_check_after_move` and
by `_alpha_beta` is an exact inverse: for any well-formed board and any
pseudo-legal move (a piece stands on the source, the destination is
on-board, the shape is accepted), reverting with the saved piece and
captured occupant restores every grid cell — hence every stored piece's
`row`, `col` and `has_moved` fields — to the pre-apply state. -/
theorem transient_apply_revert_restores (g : Grid) (fr fc tr tc : Int) (p : Piece)
    (hwf : wf_grid g) (hp : get_piece g fr fc = some p)
    (hdest : is_valid_position tr tc = true)
    (hlegal : is_valid_move p tr tc g = true) :
    revert_transient (apply_transient g fr fc tr tc) fr fc tr tc p (get_piece g tr tc) = g := by
  have hsrc : is_valid_position fr fc = true := get_piece_some_valid hp
  have ha : apply_transient g fr fc tr tc
      = setCell (setCell g tr tc (some { p with row := tr, col := tc })) fr fc none := by
    unfold apply_transient
    rw [hp]
  rw [ha]
  unfold revert_transient
  have w1 := wf_setCell hwf tr tc (some { p with row := tr, col := tc })
  have w2 := wf_setCell w1 fr fc none
  have w3 := wf_setCell w2 fr fc (some p)
  have w4 := wf_setCell w3 tr tc (get_piece g tr tc)
  apply grid_ext w4 hwf
  intro r c hv
  by_cases h1 : r = tr ∧ c = tc
  · obtain ⟨rfl, rfl⟩ := h1
    rw [get_piece_setCell_self w3 hdest]
  · rw [get_piece_setCell_ne w3 _ h1]
    by_cases h2 : r = fr ∧ c = fc
    · obtain ⟨rfl, rfl⟩ := h2
      rw [get_piece_setCell_self w2 hsrc, hp]
    · rw [get_piece_setCell_ne w2 _ h2, get_piece_setCell_ne w1 _ h2,
        get_piece_setCell_ne hwf _ h1]

/-- Witness for C5: apply-then-revert of the knight move (7,1)→(5,0) on
the fresh board restores the initial grid exactly. -/
theorem transient_apply_revert_restores_witness :
    wf_grid initial_grid
    ∧ get_piece initial_grid 7 1 = some ⟨.white, .knight, 7, 1, false⟩
    ∧ is_valid_position 5 0 = true
    ∧ is_valid_move ⟨.white, .knight, 7, 1, false⟩ 5 0 initial_grid = true
    ∧ revert_transient (apply_transient initial_grid 7 1 5 0) 7 1 5 0
        ⟨.white, .knight, 7, 1, false⟩ (get_piece initial_grid 5 0) = initial_grid :=
  ⟨by unfold wf_grid; decide, by decide, by decide, by decide,
    transient_apply_revert_restores initial_grid 7 1 5 0 ⟨.white, .knight, 7, 1, false⟩
      (by unfold wf_grid; decide) (by decide) (by decide) (by decide)⟩

end Chess
